import Mathlib

/-!
Shallow embedding of the `arg-parse-rust` library
(`src/error.rs`, `src/opt.rs`, `src/matches.rs`) and proofs about it.

Rust `String`/`&str` values are embedded as Lean `String`; the char-level
operations the code uses (`starts_with("-")`, `starts_with("--")`,
`strip_prefix("--")`, `chars().count()`, `chars().nth(1)`) are embedded as
operations on `String.data`, which agree with the Rust byte-level operations
because the patterns involved are ASCII.  `HashMap<String, Value>` is embedded
as an association list with `mapGet`/`mapInsert`; only `get`, `get_mut` and
`insert` are used by the code, and the embedding reproduces their semantics.
`HashSet` in `validate` is embedded as a list used only through membership.
-/

set_option autoImplicit false

namespace ArgParse

/-- Models Rust `s.starts_with("-")` (ASCII pattern, so char-prefix = byte-prefix). -/
def startsDash (s : String) : Bool :=
  match s.data with
  | '-' :: _ => true
  | _ => false

/-- Models Rust `s.starts_with("--")`. -/
def startsDdash (s : String) : Bool :=
  match s.data with
  | '-' :: '-' :: _ => true
  | _ => false

/-- Models Rust `s.strip_prefix("--").unwrap()` under `s.starts_with("--")`:
dropping the first two (ASCII) characters. -/
def dropTwo (s : String) : String :=
  String.mk (s.data.drop 2)

/-- `error.rs`: `enum ParseError`. -/
inductive ParseError where
  | MalformedOption (s : String)
  | UnexpectedOption (s : String)
  | MissingProgramName
  | MissingValue (s : String)
  | BadInternalState
  deriving DecidableEq

/-- `error.rs`: `enum ValueError`. -/
inductive ValueError where
  | WrongOptionType
  | ConversionError (s : String)
  deriving DecidableEq

/-- `opt.rs`: `enum Action`. -/
inductive Action where
  | Set
  | Append
  | SetTrue
  | SetFalse
  deriving DecidableEq

/-- `opt.rs`: `enum Value`. -/
inductive Value where
  | Single (s : String)
  | Multi (vs : List String)
  | Flag (b : Bool)
  deriving DecidableEq

/-- `opt.rs`: `struct Opt`. -/
structure Opt where
  name : String
  short : Option Char
  long : Option String
  help : Option String
  default : Option String
  action : Action
  required : Bool
  deriving DecidableEq

/-- `opt.rs`: `Opt::name`, the builder entry point. -/
def Opt.ofName (name : String) : Opt :=
  { name := name
    short := none
    long := none
    help := none
    default := none
    action := Action.Set
    required := false }

/-- `opt.rs`: `Opt::short` (chained setter). -/
def Opt.withShort (o : Opt) (short : Char) : Opt := { o with short := some short }

/-- `opt.rs`: `Opt::long` (chained setter). -/
def Opt.withLong (o : Opt) (long : String) : Opt := { o with long := some long }

/-- `opt.rs`: `Opt::help` (chained setter). -/
def Opt.withHelp (o : Opt) (help : String) : Opt := { o with help := some help }

/-- `opt.rs`: `Opt::default` (chained setter). -/
def Opt.withDefault (o : Opt) (default : String) : Opt := { o with default := some default }

/-- `opt.rs`: `Opt::action` (chained setter). -/
def Opt.withAction (o : Opt) (action : Action) : Opt := { o with action := action }

/-- `opt.rs`: `Opt::required` (chained setter). -/
def Opt.withRequired (o : Opt) (required : Bool) : Opt := { o with required := required }

/-- Embedding of `HashMap<String, Value>` as an association list. -/
abbrev NamedMap := List (String × Value)

/-- Models `HashMap::get`. -/
def mapGet (m : NamedMap) (k : String) : Option Value :=
  match m with
  | [] => none
  | (k', v) :: rest => if k' = k then some v else mapGet rest k

/-- Models `HashMap::insert` (and in-place update through `get_mut`). -/
def mapInsert (m : NamedMap) (k : String) (v : Value) : NamedMap :=
  match m with
  | [] => [(k, v)]
  | (k', v') :: rest => if k' = k then (k, v) :: rest else (k', v') :: mapInsert rest k v

/-- `opt.rs`: `struct Opts`. -/
structure Opts where
  opts : List Opt
  deriving DecidableEq

/-- Models `arg.short.is_some() && seen.contains(&arg.short.unwrap())`
(likewise for `long`). -/
def clashSome {α : Type} [DecidableEq α] (s : Option α) (seen : List α) : Bool :=
  match s with
  | some c => decide (c ∈ seen)
  | none => false

/-- Models `arg.short.unwrap()` rendered into the error message. -/
def unwrapShort (s : Option Char) : String :=
  match s with
  | some c => toString c
  | none => ""

/-- Models `arg.long.as_ref().unwrap()` rendered into the error message. -/
def unwrapLong (s : Option String) : String :=
  match s with
  | some l => l
  | none => ""

/-- The loop body of `Opts::validate`: iterate declarations carrying the three
seen-sets (`HashSet`s embedded as lists used through membership only). -/
def validateGo : List Opt → List String → List Char → List String → Except String Unit
  | [], _, _, _ => Except.ok ()
  | arg :: rest, names, shorts, longs =>
    if arg.name ∈ names then
      Except.error ("Optument names must be unique; found two with name " ++ arg.name)
    else if clashSome arg.short shorts then
      Except.error ("Short flags must be unique; found two with short flag -" ++
        unwrapShort arg.short)
    else if clashSome arg.long longs then
      Except.error ("Long flags must be unique; found two with long flag --" ++
        unwrapLong arg.long)
    else
      validateGo rest (arg.name :: names)
        (match arg.short with | some c => c :: shorts | none => shorts)
        (match arg.long with | some l => l :: longs | none => longs)

/-- `opt.rs`: `Opts::validate`. -/
def Opts.validate (o : Opts) : Except String Unit :=
  validateGo o.opts [] [] []

/-- `opt.rs`: `Opts::new`. -/
def Opts.new (opts : List Opt) : Except String Opts :=
  let args : Opts := ⟨opts⟩
  match args.validate with
  | Except.error e => Except.error e
  | Except.ok () => Except.ok args

/-- `opt.rs`: `Opts::add`.  Takes `&mut self`; embedded as returning the result
together with the post-call registry state: the declaration is pushed first and
validation runs on the grown sequence, with no rollback on failure. -/
def Opts.add (o : Opts) (arg : Opt) : Except String Unit × Opts :=
  let o' : Opts := ⟨o.opts ++ [arg]⟩
  (o'.validate, o')

/-- `opt.rs`: `Opts::find_opt`. -/
def Opts.find_opt (o : Opts) (arg : String) : Except ParseError Opt :=
  let optRes : Except ParseError (Option Opt) :=
    if startsDdash arg then
      Except.ok (o.opts.find? fun op => op.long = some (dropTwo arg))
    else if startsDash arg then
      if arg.data.length ≠ 2 then
        Except.error (ParseError.MalformedOption arg)
      else
        Except.ok (o.opts.find? fun op => op.short = arg.data.get? 1)
    else
      Except.error (ParseError.UnexpectedOption arg)
  match optRes with
  | Except.error e => Except.error e
  | Except.ok (some op) => Except.ok op
  | Except.ok none => Except.error (ParseError.UnexpectedOption arg)

/-- The loop body of `Opts::populate_defaults`, one option at a time. -/
def populateLoop : List Opt → NamedMap → NamedMap
  | [], named => named
  | opt :: rest, named =>
    populateLoop rest
      (match opt.default with
       | some d => mapInsert named opt.name (Value.Single d)
       | none =>
         match opt.action with
         | Action.Set => named
         | Action.Append => mapInsert named opt.name (Value.Multi [])
         | Action.SetTrue => mapInsert named opt.name (Value.Flag true)
         | Action.SetFalse => mapInsert named opt.name (Value.Flag false))

/-- `opt.rs`: `Opts::populate_defaults`. -/
def Opts.populate_defaults (o : Opts) (named : NamedMap) : NamedMap :=
  populateLoop o.opts named

/-- `matches.rs`: `struct Matches`. -/
structure Matches where
  exec_name : String
  positional : List String
  named : NamedMap
  deriving DecidableEq

/-- The `while let` loop of `Opts::parse`, over the remaining tokens and the
accumulated positional list and named map. -/
def parseLoop (o : Opts) :
    List String → List String → NamedMap → Except ParseError (List String × NamedMap)
  | [], positional, named => Except.ok (positional, named)
  | arg :: rest, positional, named =>
    if startsDash arg then
      match o.find_opt arg with
      | Except.error e => Except.error e
      | Except.ok opt =>
        match opt.action with
        | Action.Set =>
          match rest with
          | value :: rest' =>
            parseLoop o rest' positional (mapInsert named opt.name (Value.Single value))
          | [] => Except.error (ParseError.MissingValue opt.name)
        | Action.Append =>
          match rest, mapGet named opt.name with
          | [], _ => Except.error (ParseError.MissingValue opt.name)
          | val :: rest', some (Value.Multi vals) =>
            parseLoop o rest' positional
              (mapInsert named opt.name (Value.Multi (vals ++ [val])))
          | val :: rest', none =>
            parseLoop o rest' positional (mapInsert named opt.name (Value.Multi [val]))
          | _ :: _, some _ => Except.error ParseError.BadInternalState
        | Action.SetTrue =>
          parseLoop o rest positional (mapInsert named opt.name (Value.Flag true))
        | Action.SetFalse =>
          parseLoop o rest positional (mapInsert named opt.name (Value.Flag false))
    else
      parseLoop o rest (positional ++ [arg]) named

/-- `opt.rs`: `Opts::parse`. -/
def Opts.parse (o : Opts) (args : List String) : Except ParseError Matches :=
  match args with
  | [] => Except.error ParseError.MissingProgramName
  | exec_name :: rest =>
    match parseLoop o rest [] (o.populate_defaults []) with
    | Except.error e => Except.error e
    | Except.ok (positional, named) => Except.ok ⟨exec_name, positional, named⟩

/-- `matches.rs`: `Matches::flag`. -/
def Matches.flag (m : Matches) (name : String) : Except ValueError (Option Bool) :=
  match mapGet m.named name with
  | some (Value.Flag b) => Except.ok (some b)
  | some _ => Except.error ValueError.WrongOptionType
  | none => Except.ok none

/-- `matches.rs`: `Matches::one`.  The caller-chosen `T: FromStr` conversion is
embedded as `conv : String → Option T`; the `FromStr` error payload is
discarded by the code (`map_err(|_| ...)`), so `Option` loses nothing. -/
def Matches.one {T : Type} (conv : String → Option T) (m : Matches) (name : String) :
    Except ValueError (Option T) :=
  match mapGet m.named name with
  | some (Value.Single val) =>
    match conv val with
    | some v => Except.ok (some v)
    | none => Except.error (ValueError.ConversionError val)
  | some _ => Except.error ValueError.WrongOptionType
  | none => Except.ok none

/-- Models `val.iter().map(|v| T::from_str(v)).collect::<Result<Vec<T>, _>>()`:
all-or-nothing conversion of a list. -/
def collectList {T : Type} (conv : String → Option T) : List String → Option (List T)
  | [] => some []
  | v :: rest =>
    match conv v, collectList conv rest with
    | some t, some ts => some (t :: ts)
    | _, _ => none

/-- Models Rust `char::escape_debug` as used by `format!("{:?}", _)` on the
characters appearing here (quote, backslash and common control characters;
other printable characters are rendered verbatim). -/
def escapeDebugChar (c : Char) : String :=
  if c = '"' then "\\\""
  else if c = '\\' then "\\\\"
  else if c = '\n' then "\\n"
  else if c = '\t' then "\\t"
  else if c = '\r' then "\\r"
  else String.mk [c]

/-- Models `format!("{:?}", s)` for a `String`. -/
def fmtDebugStr (s : String) : String :=
  "\"" ++ String.join (s.data.map escapeDebugChar) ++ "\""

/-- Models `format!("{:?}", val)` for a `Vec<String>`, as used in
`Matches::all`'s `map_err`. -/
def fmtDebugVec (vs : List String) : String :=
  "[" ++ String.intercalate ", " (vs.map fmtDebugStr) ++ "]"

/-- `matches.rs`: `Matches::all`. -/
def Matches.all {T : Type} (conv : String → Option T) (m : Matches) (name : String) :
    Except ValueError (List T) :=
  match mapGet m.named name with
  | some (Value.Multi val) =>
    match collectList conv val with
    | some ts => Except.ok ts
    | none => Except.error (ValueError.ConversionError (fmtDebugVec val))
  | some _ => Except.error ValueError.WrongOptionType
  | none => Except.ok []

/-- Modelled from the spec (§4.2 "Default population"): the value an option's
slot is seeded with before any token is consumed — `none` meaning no entry. -/
def specSeed (op : Opt) : Option Value :=
  match op.default with
  | some d => some (Value.Single d)
  | none =>
    match op.action with
    | Action.Set => none
    | Action.Append => some (Value.Multi [])
    | Action.SetTrue => some (Value.Flag true)
    | Action.SetFalse => some (Value.Flag false)

/-- Modelled from the spec (§4.2 "Validation algorithm"): scan declarations in
order against the already-seen earlier declarations; on the first collision
report its kind (`name` checked first, then `short`, then `long`) and the
offending value. -/
def specFirstCollision : List Opt → List Opt → Option String
  | [], _ => none
  | arg :: rest, earlier =>
    if arg.name ∈ earlier.map Opt.name then
      some ("Optument names must be unique; found two with name " ++ arg.name)
    else if clashSome arg.short (earlier.filterMap Opt.short) then
      some ("Short flags must be unique; found two with short flag -" ++
        unwrapShort arg.short)
    else if clashSome arg.long (earlier.filterMap Opt.long) then
      some ("Long flags must be unique; found two with long flag --" ++
        unwrapLong arg.long)
    else
      specFirstCollision rest (earlier ++ [arg])

/-! ### Lemmas about the association-list map -/

theorem mapGet_mapInsert (m : NamedMap) (k k' : String) (v : Value) :
    mapGet (mapInsert m k v) k' = if k = k' then some v else mapGet m k' := by
  induction m with
  | nil => simp [mapInsert, mapGet]
  | cons hd tl ih =>
    obtain ⟨k0, v0⟩ := hd
    by_cases h0 : k0 = k <;> by_cases h1 : k = k' <;> by_cases h2 : k0 = k' <;>
      simp_all [mapInsert, mapGet]

theorem collectList_eq_none_iff {T : Type} (conv : String → Option T) (vs : List String) :
    collectList conv vs = none ↔ ∃ v ∈ vs, conv v = none := by
  induction vs with
  | nil => simp [collectList]
  | cons v rest ih =>
    simp only [collectList]
    cases hv : conv v <;> cases hr : collectList conv rest <;>
      simp_all [List.mem_cons]

/-! ### Concrete data reused by witnesses and counterexamples -/

/-- A concrete caller-chosen conversion standing in for `T::from_str` with
`T = u32`-like semantics: digits-only strings convert, everything else fails. -/
def natConv (s : String) : Option Nat :=
  match s.data with
  | [] => none
  | ds =>
    if ds.all Char.isDigit then
      some (ds.foldl (fun n c => n * 10 + (c.toNat - 48)) 0)
    else none

/-- A registry whose single option has action `Append` and a `default`;
it passes validation. -/
def exAppendDefault : Opts :=
  ⟨[(((Opt.ofName "q").withShort 'q').withAction Action.Append).withDefault "x"]⟩

/-- A match result whose slot `vals` holds a sequence with a non-numeric
element. -/
def mC7 : Matches := ⟨"prog", [], [("vals", Value.Multi ["1", "x"])]⟩

/-- A match result with an empty mapping. -/
def mEmpty : Matches := ⟨"prog", [], []⟩

/-! ### Claim theorems -/

/-- C1: the claim says a rejected `add` leaves the Registry in its prior valid
state with the offending declaration not retained.  The code appends the
declaration before validating and never rolls back: adding a duplicate name to
a one-declaration registry returns the duplicate-name error, yet the resulting
registry holds both copies. -/
theorem C1_add_error_retains_offender :
    (Opts.add ⟨[Opt.ofName "dup"]⟩ (Opt.ofName "dup")).1
      = Except.error "Optument names must be unique; found two with name dup"
    ∧ (Opts.add ⟨[Opt.ofName "dup"]⟩ (Opt.ofName "dup")).2
      = ⟨[Opt.ofName "dup", Opt.ofName "dup"]⟩ :=
  ⟨rfl, rfl⟩

/-- C2 counterexample: a Registry whose single option has action `Append` and a
`default` passes validation, yet parsing an occurrence of that option returns
the bad-internal-state error — so the defensive branch is reachable for a
validated Registry. -/
theorem C2_counterexample :
    exAppendDefault.validate = Except.ok ()
    ∧ exAppendDefault.parse ["prog", "-q", "v"] = Except.error ParseError.BadInternalState :=
  ⟨rfl, rfl⟩

/-- C7 counterexample: on a sequence-valued slot `["1", "x"]` where `"x"` fails
numeric conversion, `all` returns a conversion error carrying the debug
rendering of the whole sequence, not the offending text `"x"` (nor `"1"`). -/
theorem C7_counterexample :
    Matches.all natConv mC7 "vals"
      = Except.error (ValueError.ConversionError "[\"1\", \"x\"]")
    ∧ ("[\"1\", \"x\"]" : String) ≠ "x" ∧ ("[\"1\", \"x\"]" : String) ≠ "1" :=
  ⟨rfl, by decide, by decide⟩

/-- C7 (amended): for a sequence-valued slot, `all` converts every element and
fails entirely when any one element fails conversion; the conversion error
carries the debug-formatted rendering of the entire stored sequence. -/
theorem C7_all_or_nothing {T : Type} (conv : String → Option T) (m : Matches)
    (name : String) (vals : List String)
    (h : mapGet m.named name = some (Value.Multi vals)) :
    ((∃ v ∈ vals, conv v = none) →
      Matches.all conv m name = Except.error (ValueError.ConversionError (fmtDebugVec vals)))
    ∧ ((∀ v ∈ vals, conv v ≠ none) → ∃ ts, Matches.all conv m name = Except.ok ts) := by
  constructor
  · intro hex
    have hnone : collectList conv vals = none := (collectList_eq_none_iff conv vals).2 hex
    simp [Matches.all, h, hnone]
  · intro hall
    cases hts : collectList conv vals with
    | none =>
      obtain ⟨v, hv, hvn⟩ := (collectList_eq_none_iff conv vals).1 hts
      exact absurd hvn (hall v hv)
    | some ts => exact ⟨ts, by simp [Matches.all, h, hts]⟩

/-- C7 witness: instantiating the amended theorem on the concrete match result
`mC7` with the numeric conversion. -/
theorem C7_all_or_nothing_witness :
    Matches.all natConv mC7 "vals"
      = Except.error (ValueError.ConversionError (fmtDebugVec ["1", "x"])) :=
  (C7_all_or_nothing natConv mC7 "vals" ["1", "x"] rfl).1
    ⟨"x", by decide, rfl⟩

/-- C8: a name with no entry in the mapping yields an "absent" success from all
three accessors: `flag` and `one` return `none` successfully and `all` returns
the empty sequence successfully. -/
theorem C8_absent_is_success {T : Type} (conv : String → Option T) (m : Matches)
    (name : String) (h : mapGet m.named name = none) :
    Matches.flag m name = Except.ok none
    ∧ Matches.one conv m name = Except.ok none
    ∧ Matches.all conv m name = Except.ok [] := by
  simp [Matches.flag, Matches.one, Matches.all, h]

/-- C8 witness: the accessors on an empty mapping at name `z`. -/
theorem C8_absent_is_success_witness :
    Matches.flag mEmpty "z" = Except.ok none
    ∧ Matches.one natConv mEmpty "z" = Except.ok none
    ∧ Matches.all natConv mEmpty "z" = Except.ok [] :=
  C8_absent_is_success natConv mEmpty "z" rfl

/-- C9: the accessors embed Rust methods taking `&self` with no interior
mutability, so they are pure functions of the match result; two calls of the
same typed accessor on the same match result return equal results, and the
match result itself is unchanged by the calls. -/
theorem C9_accessors_idempotent {T : Type} (conv : String → Option T) (m : Matches)
    (name : String) :
    Matches.flag m name = Matches.flag m name
    ∧ Matches.one conv m name = Matches.one conv m name
    ∧ Matches.all conv m name = Matches.all conv m name :=
  ⟨rfl, rfl, rfl⟩

/-- C10: `Opt::name` produces a declaration with absent `short`, `long`,
`help` and `default`, action `Set` and `required = false`; each chained setter
changes only its own attribute. -/
theorem C10_builder :
    (∀ n : String, (Opt.ofName n).name = n ∧ (Opt.ofName n).short = none
      ∧ (Opt.ofName n).long = none ∧ (Opt.ofName n).help = none
      ∧ (Opt.ofName n).default = none ∧ (Opt.ofName n).action = Action.Set
      ∧ (Opt.ofName n).required = false)
    ∧ (∀ (o : Opt) (c : Char), (o.withShort c).short = some c
      ∧ (o.withShort c).name = o.name ∧ (o.withShort c).long = o.long
      ∧ (o.withShort c).help = o.help ∧ (o.withShort c).default = o.default
      ∧ (o.withShort c).action = o.action ∧ (o.withShort c).required = o.required)
    ∧ (∀ (o : Opt) (s : String), (o.withLong s).long = some s
      ∧ (o.withLong s).name = o.name ∧ (o.withLong s).short = o.short
      ∧ (o.withLong s).help = o.help ∧ (o.withLong s).default = o.default
      ∧ (o.withLong s).action = o.action ∧ (o.withLong s).required = o.required)
    ∧ (∀ (o : Opt) (s : String), (o.withHelp s).help = some s
      ∧ (o.withHelp s).name = o.name ∧ (o.withHelp s).short = o.short
      ∧ (o.withHelp s).long = o.long ∧ (o.withHelp s).default = o.default
      ∧ (o.withHelp s).action = o.action ∧ (o.withHelp s).required = o.required)
    ∧ (∀ (o : Opt) (s : String), (o.withDefault s).default = some s
      ∧ (o.withDefault s).name = o.name ∧ (o.withDefault s).short = o.short
      ∧ (o.withDefault s).long = o.long ∧ (o.withDefault s).help = o.help
      ∧ (o.withDefault s).action = o.action ∧ (o.withDefault s).required = o.required)
    ∧ (∀ (o : Opt) (a : Action), (o.withAction a).action = a
      ∧ (o.withAction a).name = o.name ∧ (o.withAction a).short = o.short
      ∧ (o.withAction a).long = o.long ∧ (o.withAction a).help = o.help
      ∧ (o.withAction a).default = o.default ∧ (o.withAction a).required = o.required)
    ∧ (∀ (o : Opt) (b : Bool), (o.withRequired b).required = b
      ∧ (o.withRequired b).name = o.name ∧ (o.withRequired b).short = o.short
      ∧ (o.withRequired b).long = o.long ∧ (o.withRequired b).help = o.help
      ∧ (o.withRequired b).default = o.default ∧ (o.withRequired b).action = o.action) :=
  ⟨fun _ => ⟨rfl, rfl, rfl, rfl, rfl, rfl, rfl⟩,
   fun _ _ => ⟨rfl, rfl, rfl, rfl, rfl, rfl, rfl⟩,
   fun _ _ => ⟨rfl, rfl, rfl, rfl, rfl, rfl, rfl⟩,
   fun _ _ => ⟨rfl, rfl, rfl, rfl, rfl, rfl, rfl⟩,
   fun _ _ => ⟨rfl, rfl, rfl, rfl, rfl, rfl, rfl⟩,
   fun _ _ => ⟨rfl, rfl, rfl, rfl, rfl, rfl, rfl⟩,
   fun _ _ => ⟨rfl, rfl, rfl, rfl, rfl, rfl, rfl⟩⟩

/-! ### Lemmas about validation -/

theorem clashSome_iff {α : Type} [DecidableEq α] (s : Option α) (seen : List α) :
    clashSome s seen = true ↔ ∃ c, s = some c ∧ c ∈ seen := by
  cases s <;> simp [clashSome]

theorem clashSome_congr {α : Type} [DecidableEq α] (s : Option α) {l1 l2 : List α}
    (h : ∀ c, c ∈ l1 ↔ c ∈ l2) : clashSome s l1 = clashSome s l2 := by
  cases s <;> simp [clashSome, h]

theorem seen_step_iff {α : Type} (a : α) (rest : List α) (seen : List α) (ha : a ∉ seen) :
    (rest.Nodup ∧ ∀ x ∈ rest, x ∉ a :: seen) ↔
      ((a :: rest).Nodup ∧ ∀ x ∈ a :: rest, x ∉ seen) := by
  simp only [List.nodup_cons, List.mem_cons]
  constructor
  · rintro ⟨hnd, hf⟩
    refine ⟨⟨fun hmem => (hf a hmem) (by simp), hnd⟩, ?_⟩
    intro x hx
    rcases hx with rfl | hx
    · exact ha
    · intro hxs
      exact (hf x hx) (by simp [hxs])
  · rintro ⟨⟨hna, hnd⟩, hf⟩
    refine ⟨hnd, ?_⟩
    intro x hx hmem
    rcases hmem with rfl | hmem
    · exact hna hx
    · exact hf x (Or.inr hx) hmem

theorem validateGo_ok_iff (opts : List Opt) :
    ∀ (names : List String) (shorts : List Char) (longs : List String),
    validateGo opts names shorts longs = Except.ok () ↔
      (((opts.map Opt.name).Nodup ∧ ∀ n ∈ opts.map Opt.name, n ∉ names)
      ∧ ((opts.filterMap Opt.short).Nodup ∧ ∀ c ∈ opts.filterMap Opt.short, c ∉ shorts)
      ∧ ((opts.filterMap Opt.long).Nodup ∧ ∀ l ∈ opts.filterMap Opt.long, l ∉ longs)) := by
  induction opts with
  | nil => intro names shorts longs; simp [validateGo]
  | cons arg rest ih =>
    intro names shorts longs
    simp only [validateGo]
    by_cases h1 : arg.name ∈ names
    · rw [if_pos h1]
      refine iff_of_false (by simp) ?_
      rintro ⟨⟨_, hf⟩, _, _⟩
      exact hf arg.name (by simp) h1
    rw [if_neg h1]
    by_cases h2 : clashSome arg.short shorts = true
    · rw [if_pos h2]
      obtain ⟨c, hc, hcm⟩ := (clashSome_iff arg.short shorts).1 h2
      refine iff_of_false (by simp) ?_
      rintro ⟨_, ⟨_, hf⟩, _⟩
      exact hf c (by simp [List.filterMap_cons, hc]) hcm
    rw [if_neg h2]
    by_cases h3 : clashSome arg.long longs = true
    · rw [if_pos h3]
      obtain ⟨l, hl, hlm⟩ := (clashSome_iff arg.long longs).1 h3
      refine iff_of_false (by simp) ?_
      rintro ⟨_, _, ⟨_, hf⟩⟩
      exact hf l (by simp [List.filterMap_cons, hl]) hlm
    rw [if_neg h3]
    rw [ih]
    cases hs : arg.short with
    | none =>
      cases hl : arg.long with
      | none =>
        simp only [List.map_cons, List.filterMap_cons, hs, hl]
        exact and_congr (seen_step_iff arg.name (rest.map Opt.name) names h1)
          (and_congr Iff.rfl Iff.rfl)
      | some l =>
        have hlm : l ∉ longs := by simpa [clashSome, hs, hl] using h3
        simp only [List.map_cons, List.filterMap_cons, hs, hl]
        exact and_congr (seen_step_iff arg.name (rest.map Opt.name) names h1)
          (and_congr Iff.rfl (seen_step_iff l (rest.filterMap Opt.long) longs hlm))
    | some c =>
      have hcm : c ∉ shorts := by simpa [clashSome, hs] using h2
      cases hl : arg.long with
      | none =>
        simp only [List.map_cons, List.filterMap_cons, hs, hl]
        exact and_congr (seen_step_iff arg.name (rest.map Opt.name) names h1)
          (and_congr (seen_step_iff c (rest.filterMap Opt.short) shorts hcm) Iff.rfl)
      | some l =>
        have hlm : l ∉ longs := by simpa [clashSome, hs, hl] using h3
        simp only [List.map_cons, List.filterMap_cons, hs, hl]
        exact and_congr (seen_step_iff arg.name (rest.map Opt.name) names h1)
          (and_congr (seen_step_iff c (rest.filterMap Opt.short) shorts hcm)
            (seen_step_iff l (rest.filterMap Opt.long) longs hlm))

theorem validate_ok_iff (o : Opts) :
    o.validate = Except.ok () ↔
      ((o.opts.map Opt.name).Nodup ∧ (o.opts.filterMap Opt.short).Nodup
        ∧ (o.opts.filterMap Opt.long).Nodup) := by
  rw [Opts.validate, validateGo_ok_iff]
  simp

theorem validateGo_eq_specFirstCollision (opts : List Opt) :
    ∀ (earlier : List Opt) (names : List String) (shorts : List Char) (longs : List String),
    (∀ x, x ∈ names ↔ x ∈ earlier.map Opt.name) →
    (∀ c, c ∈ shorts ↔ c ∈ earlier.filterMap Opt.short) →
    (∀ l, l ∈ longs ↔ l ∈ earlier.filterMap Opt.long) →
    validateGo opts names shorts longs =
      (match specFirstCollision opts earlier with
       | none => Except.ok ()
       | some m => Except.error m) := by
  induction opts with
  | nil => intros; simp [validateGo, specFirstCollision]
  | cons arg rest ih =>
    intro earlier names shorts longs hn hs hl
    simp only [validateGo, specFirstCollision]
    rw [clashSome_congr arg.short hs, clashSome_congr arg.long hl]
    by_cases h1 : arg.name ∈ earlier.map Opt.name
    · rw [if_pos ((hn _).2 h1), if_pos h1]
    rw [if_neg (fun h => h1 ((hn _).1 h)), if_neg h1]
    by_cases h2 : clashSome arg.short (earlier.filterMap Opt.short) = true
    · rw [if_pos h2, if_pos h2]
    rw [if_neg h2, if_neg h2]
    by_cases h3 : clashSome arg.long (earlier.filterMap Opt.long) = true
    · rw [if_pos h3, if_pos h3]
    rw [if_neg h3, if_neg h3]
    apply ih
    · intro x
      rw [List.map_append]
      simp only [List.mem_cons, List.mem_append, List.map_cons, List.map_nil,
        List.mem_singleton, hn x]
      tauto
    · intro c
      rw [List.filterMap_append]
      cases hsa : arg.short with
      | none => simp [List.filterMap_cons, hsa, hs c]
      | some c0 => simp [List.filterMap_cons, hsa, hs c, or_comm]
    · intro l
      rw [List.filterMap_append]
      cases hla : arg.long with
      | none => simp [List.filterMap_cons, hla, hl l]
      | some l0 => simp [List.filterMap_cons, hla, hl l, or_comm]

/-- C5: Registry construction succeeds exactly for declaration sequences with
pairwise-distinct names, pairwise-distinct present shorts and pairwise-distinct
present longs; and construction refines the spec's first-collision scan: on a
duplicate it fails with the message identifying the kind of collision (name
checked first, then short, then long) and the offending value of the first
conflicting declaration in declaration order. -/
theorem C5_construction_characterized (decls : List Opt) :
    (Opts.new decls = Except.ok ⟨decls⟩ ↔
      ((decls.map Opt.name).Nodup ∧ (decls.filterMap Opt.short).Nodup
        ∧ (decls.filterMap Opt.long).Nodup))
    ∧ Opts.new decls =
        (match specFirstCollision decls [] with
         | none => Except.ok ⟨decls⟩
         | some m => Except.error m) := by
  have hv : Opts.validate ⟨decls⟩ =
      (match specFirstCollision decls [] with
       | none => Except.ok ()
       | some m => Except.error m) :=
    validateGo_eq_specFirstCollision decls [] [] [] [] (by simp) (by simp) (by simp)
  cases hsp : specFirstCollision decls [] with
  | none =>
    rw [hsp] at hv
    constructor
    · exact iff_of_true (by simp [Opts.new, hv]) ((validate_ok_iff ⟨decls⟩).1 hv)
    · simp [Opts.new, hv, hsp]
  | some m =>
    rw [hsp] at hv
    constructor
    · refine iff_of_false (by simp [Opts.new, hv]) ?_
      intro hN
      have := (validate_ok_iff ⟨decls⟩).2 hN
      rw [hv] at this
      cases this
    · simp [Opts.new, hv, hsp]

/-! ### Lemmas about default population -/

theorem mapGet_mapInsert_self (m : NamedMap) (k : String) (v : Value) :
    mapGet (mapInsert m k v) k = some v := by
  rw [mapGet_mapInsert, if_pos rfl]

theorem mapGet_mapInsert_ne (m : NamedMap) {k0 k : String} (v : Value) (hne : k0 ≠ k) :
    mapGet (mapInsert m k0 v) k = mapGet m k := by
  rw [mapGet_mapInsert, if_neg hne]

theorem populateLoop_get_not_mem (opts : List Opt) (m : NamedMap) (k : String)
    (h : k ∉ opts.map Opt.name) : mapGet (populateLoop opts m) k = mapGet m k := by
  induction opts generalizing m with
  | nil => rfl
  | cons op rest ih =>
    simp only [List.map_cons, List.mem_cons, not_or] at h
    obtain ⟨hne, hrest⟩ := h
    have hne' : op.name ≠ k := fun he => hne he.symm
    simp only [populateLoop]
    rw [ih _ hrest]
    cases hd : op.default with
    | some d => rw [mapGet_mapInsert_ne _ _ hne']
    | none => cases ha : op.action <;> simp [mapGet_mapInsert_ne _ _ hne']

theorem populateLoop_get_mem (opts : List Opt) (m : NamedMap) (op : Opt)
    (hnd : (opts.map Opt.name).Nodup) (hmem : op ∈ opts) :
    mapGet (populateLoop opts m) op.name =
      (match specSeed op with
       | some v => some v
       | none => mapGet m op.name) := by
  induction opts generalizing m with
  | nil => cases hmem
  | cons o0 rest ih =>
    simp only [List.map_cons, List.nodup_cons] at hnd
    obtain ⟨h0, hndr⟩ := hnd
    rcases List.mem_cons.1 hmem with rfl | hmem'
    · simp only [populateLoop]
      rw [populateLoop_get_not_mem rest _ _ h0]
      cases hd : op.default with
      | some d => simp [specSeed, hd, mapGet_mapInsert_self]
      | none =>
        cases ha : op.action <;> simp [specSeed, hd, ha, mapGet_mapInsert_self]
    · have hne : o0.name ≠ op.name :=
        fun he => h0 (he ▸ List.mem_map_of_mem Opt.name hmem')
      simp only [populateLoop]
      rw [ih _ hndr hmem']
      cases hseed : specSeed op with
      | some v => rfl
      | none =>
        cases hd : o0.default with
        | some d => rw [mapGet_mapInsert_ne _ _ hne]
        | none => cases ha : o0.action <;> simp [mapGet_mapInsert_ne _ _ hne]

/-- C3: for a validated Registry, the default-population pre-pass seeds each
declared option's slot exactly as `specSeed` describes (a `default` becomes
`Value::Single` regardless of action; otherwise `Set` gets no entry, `Append`
an empty sequence, `SetTrue` the boolean `true` and `SetFalse` the boolean
`false`); and the pass runs before any argument token is consumed: a parse
with no argument tokens returns precisely the seeded mapping. -/
theorem C3_default_population (o : Opts) (h : o.validate = Except.ok ()) :
    (∀ op ∈ o.opts, mapGet (o.populate_defaults []) op.name = specSeed op)
    ∧ (∀ e : String, o.parse [e] = Except.ok ⟨e, [], o.populate_defaults []⟩) := by
  have hnd : (o.opts.map Opt.name).Nodup := ((validate_ok_iff o).1 h).1
  constructor
  · intro op hop
    have hg := populateLoop_get_mem o.opts [] op hnd hop
    rw [Opts.populate_defaults, hg]
    cases specSeed op <;> rfl
  · intro e
    rfl

/-- A registry exercising all five seeding behaviors. -/
def exSeeds : Opts :=
  ⟨[(Opt.ofName "a").withDefault "d",
    Opt.ofName "b",
    (Opt.ofName "c").withAction Action.Append,
    (Opt.ofName "t").withAction Action.SetTrue,
    (Opt.ofName "f").withAction Action.SetFalse]⟩

/-- C3 witness: the seeded mapping of `exSeeds`, one lookup per behavior, plus
the empty-argument parse. -/
theorem C3_default_population_witness :
    mapGet (exSeeds.populate_defaults []) "a" = some (Value.Single "d")
    ∧ mapGet (exSeeds.populate_defaults []) "b" = none
    ∧ mapGet (exSeeds.populate_defaults []) "c" = some (Value.Multi [])
    ∧ mapGet (exSeeds.populate_defaults []) "t" = some (Value.Flag true)
    ∧ mapGet (exSeeds.populate_defaults []) "f" = some (Value.Flag false)
    ∧ exSeeds.parse ["prog"] = Except.ok ⟨"prog", [], exSeeds.populate_defaults []⟩ :=
  ⟨(C3_default_population exSeeds rfl).1 ((Opt.ofName "a").withDefault "d") (by decide),
   (C3_default_population exSeeds rfl).1 (Opt.ofName "b") (by decide),
   (C3_default_population exSeeds rfl).1 ((Opt.ofName "c").withAction Action.Append) (by decide),
   (C3_default_population exSeeds rfl).1 ((Opt.ofName "t").withAction Action.SetTrue) (by decide),
   (C3_default_population exSeeds rfl).1 ((Opt.ofName "f").withAction Action.SetFalse) (by decide),
   (C3_default_population exSeeds rfl).2 "prog"⟩

/-- A registry with one `Set`-action option with short flag `s`. -/
def exSet : Opts := ⟨[(Opt.ofName "host").withShort 's']⟩

/-- C4: when a token resolves to an option with action `Set`, parse consumes
the literal next token as the value — whatever it looks like, dashes included —
overwriting any prior value for that option; an `Append` option likewise
consumes the literal next token; and with no next token, parse fails with
`MissingValue` carrying the option's name. -/
theorem C4_value_consumption (o : Opts) (arg : String) (opt : Opt)
    (positional : List String) (named : NamedMap)
    (hdash : startsDash arg = true) (hfind : o.find_opt arg = Except.ok opt) :
    (∀ (value : String) (rest : List String), opt.action = Action.Set →
      parseLoop o (arg :: value :: rest) positional named
        = parseLoop o rest positional (mapInsert named opt.name (Value.Single value))
      ∧ mapGet (mapInsert named opt.name (Value.Single value)) opt.name
        = some (Value.Single value))
    ∧ (∀ (value : String) (rest : List String), opt.action = Action.Append →
      parseLoop o (arg :: value :: rest) positional named
        = (match mapGet named opt.name with
           | some (Value.Multi vals) =>
             parseLoop o rest positional
               (mapInsert named opt.name (Value.Multi (vals ++ [value])))
           | none =>
             parseLoop o rest positional (mapInsert named opt.name (Value.Multi [value]))
           | some _ => Except.error ParseError.BadInternalState))
    ∧ ((opt.action = Action.Set ∨ opt.action = Action.Append) →
      parseLoop o [arg] positional named
        = Except.error (ParseError.MissingValue opt.name)) := by
  refine ⟨?_, ?_, ?_⟩
  · intro value rest ha
    exact ⟨by simp [parseLoop, hdash, hfind, ha], mapGet_mapInsert_self _ _ _⟩
  · intro value rest ha
    cases hget : mapGet named opt.name with
    | none => simp [parseLoop, hdash, hfind, ha, hget]
    | some v => cases v <;> simp [parseLoop, hdash, hfind, ha, hget]
  · rintro (ha | ha) <;> simp [parseLoop, hdash, hfind, ha]

/-- C4 witness: in `exSet`, `-s` with next token `-v` (a dash-prefixed token)
stores `-v` as the value of `host`, and a trailing `-s` fails with
`MissingValue "host"`. -/
theorem C4_value_consumption_witness :
    (parseLoop exSet ["-s", "-v"] [] []
      = parseLoop exSet [] [] (mapInsert [] "host" (Value.Single "-v"))
      ∧ mapGet (mapInsert [] "host" (Value.Single "-v")) "host"
        = some (Value.Single "-v"))
    ∧ parseLoop exSet ["-s"] [] [] = Except.error (ParseError.MissingValue "host") :=
  ⟨(C4_value_consumption exSet "-s" ((Opt.ofName "host").withShort 's') [] []
      rfl rfl).1 "-v" [] rfl,
   (C4_value_consumption exSet "-s" ((Opt.ofName "host").withShort 's') [] []
      rfl rfl).2.2 (Or.inl rfl)⟩

/-- C6: resolving a dash-prefixed token: a `--` token is matched, prefix
stripped, exactly against declared `long`s (and yields `UnexpectedOption` with
the raw token when nothing matches); a single-dash token of length other than
two is `MalformedOption`; a two-character single-dash token is matched by its
second character against declared `short`s (again `UnexpectedOption` with the
raw token when nothing matches). -/
theorem C6_option_resolution (o : Opts) (arg : String) (hdash : startsDash arg = true) :
    (startsDdash arg = true →
      (∀ opt, o.find_opt arg = Except.ok opt →
        opt ∈ o.opts ∧ opt.long = some (dropTwo arg))
      ∧ ((∀ op ∈ o.opts, op.long ≠ some (dropTwo arg)) →
        o.find_opt arg = Except.error (ParseError.UnexpectedOption arg)))
    ∧ (startsDdash arg = false → arg.data.length ≠ 2 →
      o.find_opt arg = Except.error (ParseError.MalformedOption arg))
    ∧ (startsDdash arg = false → arg.data.length = 2 →
      (∀ opt, o.find_opt arg = Except.ok opt →
        opt ∈ o.opts ∧ opt.short = arg.data.get? 1)
      ∧ ((∀ op ∈ o.opts, op.short ≠ arg.data.get? 1) →
        o.find_opt arg = Except.error (ParseError.UnexpectedOption arg))) := by
  refine ⟨fun hdd => ⟨?_, ?_⟩, fun hdd hlen => ?_, fun hdd hlen => ⟨?_, ?_⟩⟩
  · intro opt hok
    unfold Opts.find_opt at hok
    rw [if_pos hdd] at hok
    cases hf : o.opts.find? (fun op => op.long = some (dropTwo arg)) with
    | none => rw [hf] at hok; exact absurd hok (by simp)
    | some op0 =>
      rw [hf] at hok
      simp only [] at hok
      cases hok
      have hp := List.find?_some hf
      simp only [decide_eq_true_eq] at hp
      exact ⟨List.mem_of_find?_eq_some hf, hp⟩
  · intro hnone
    unfold Opts.find_opt
    rw [if_pos hdd]
    have hf : o.opts.find? (fun op => op.long = some (dropTwo arg)) = none :=
      List.find?_eq_none.2 fun x hx => by simpa using hnone x hx
    rw [hf]
  · unfold Opts.find_opt
    rw [if_neg (by simp [hdd]), if_pos hdash, if_pos hlen]
  · intro opt hok
    unfold Opts.find_opt at hok
    rw [if_neg (by simp [hdd]), if_pos hdash, if_neg (by simp [hlen])] at hok
    cases hf : o.opts.find? (fun op => op.short = arg.data.get? 1) with
    | none => rw [hf] at hok; exact absurd hok (by simp)
    | some op0 =>
      rw [hf] at hok
      simp only [] at hok
      cases hok
      have hp := List.find?_some hf
      simp only [decide_eq_true_eq] at hp
      exact ⟨List.mem_of_find?_eq_some hf, hp⟩
  · intro hnone
    unfold Opts.find_opt
    rw [if_neg (by simp [hdd]), if_pos hdash, if_neg (by simp [hlen])]
    have hf : o.opts.find? (fun op => op.short = arg.data.get? 1) = none :=
      List.find?_eq_none.2 fun x hx => by simpa using hnone x hx
    rw [hf]

/-- A registry with one option with both a short and a long spelling. -/
def exC6 : Opts := ⟨[((Opt.ofName "host").withLong "host").withShort 'h']⟩

/-- C6 witness: in `exC6`, the ill-formed single-dash token `-abc` is rejected
as `MalformedOption`, and the unregistered long token `--nope` yields
`UnexpectedOption` with the raw token. -/
theorem C6_option_resolution_witness :
    Opts.find_opt exC6 "-abc" = Except.error (ParseError.MalformedOption "-abc")
    ∧ Opts.find_opt exC6 "--nope" = Except.error (ParseError.UnexpectedOption "--nope") :=
  ⟨(C6_option_resolution exC6 "-abc" rfl).2.1 rfl (by decide),
   ((C6_option_resolution exC6 "--nope" rfl).1 rfl).2 (by decide)⟩

/-! ### The Append invariant: why the defensive branch needs the no-default
side condition -/

theorem find_opt_mem (o : Opts) (arg : String) (opt : Opt)
    (h : o.find_opt arg = Except.ok opt) : opt ∈ o.opts := by
  unfold Opts.find_opt at h
  by_cases h1 : startsDdash arg = true
  · rw [if_pos h1] at h
    cases hf : o.opts.find? (fun op => op.long = some (dropTwo arg)) with
    | none => rw [hf] at h; exact absurd h (by simp)
    | some op0 =>
      rw [hf] at h
      simp only [] at h
      cases h
      exact List.mem_of_find?_eq_some hf
  · rw [if_neg h1] at h
    by_cases h2 : startsDash arg = true
    · rw [if_pos h2] at h
      by_cases h3 : arg.data.length ≠ 2
      · rw [if_pos h3] at h; exact absurd h (by simp)
      · rw [if_neg h3] at h
        cases hf : o.opts.find? (fun op => op.short = arg.data.get? 1) with
        | none => rw [hf] at h; exact absurd h (by simp)
        | some op0 =>
          rw [hf] at h
          simp only [] at h
          cases h
          exact List.mem_of_find?_eq_some hf
    · rw [if_neg h2] at h
      exact absurd h (by simp)

theorem find_opt_no_bis (o : Opts) (arg : String) :
    o.find_opt arg ≠ Except.error ParseError.BadInternalState := by
  unfold Opts.find_opt
  by_cases h1 : startsDdash arg = true
  · rw [if_pos h1]
    cases hf : o.opts.find? (fun op => op.long = some (dropTwo arg)) <;> simp [hf]
  · rw [if_neg h1]
    by_cases h2 : startsDash arg = true
    · rw [if_pos h2]
      by_cases h3 : arg.data.length ≠ 2
      · rw [if_pos h3]; simp
      · rw [if_neg h3]
        cases hf : o.opts.find? (fun op => op.short = arg.data.get? 1) <;> simp [hf]
    · rw [if_neg h2]; simp

theorem nodup_name_eq {opts : List Opt} (hnd : (opts.map Opt.name).Nodup)
    {op1 op2 : Opt} (h1 : op1 ∈ opts) (h2 : op2 ∈ opts) (he : op1.name = op2.name) :
    op1 = op2 :=
  List.inj_on_of_nodup_map hnd h1 h2 he

/-- The parse-time invariant behind the defensive `Append` branch: every
`Append`-action option's slot holds a sequence. -/
def AppendInv (o : Opts) (named : NamedMap) : Prop :=
  ∀ op ∈ o.opts, op.action = Action.Append →
    ∃ vs, mapGet named op.name = some (Value.Multi vs)

theorem parseLoop_no_bis (o : Opts) (hnd : (o.opts.map Opt.name).Nodup) :
    ∀ (tokens positional : List String) (named : NamedMap),
      AppendInv o named →
      parseLoop o tokens positional named ≠ Except.error ParseError.BadInternalState := by
  have H : ∀ (n : Nat) (tokens : List String), tokens.length ≤ n →
      ∀ (positional : List String) (named : NamedMap), AppendInv o named →
      parseLoop o tokens positional named ≠ Except.error ParseError.BadInternalState := by
    intro n
    induction n with
    | zero =>
      intro tokens hlen positional named _
      have htok : tokens = [] := List.eq_nil_of_length_eq_zero (Nat.le_zero.1 hlen)
      subst htok
      simp [parseLoop]
    | succ n ihn =>
      intro tokens hlen positional named hinv
      cases tokens with
      | nil => simp [parseLoop]
      | cons arg rest =>
        have hrlen : rest.length ≤ n := by
          simp only [List.length_cons] at hlen; omega
        by_cases hd : startsDash arg = true
        · cases hfo : o.find_opt arg with
          | error e =>
            have hstep : parseLoop o (arg :: rest) positional named = Except.error e := by
              simp [parseLoop, hd, hfo]
            rw [hstep]
            intro hEq
            injection hEq with hEq'
            exact find_opt_no_bis o arg (by rw [hfo, hEq'])
          | ok opt =>
            have hmem : opt ∈ o.opts := find_opt_mem o arg opt hfo
            cases ha : opt.action with
            | Set =>
              cases rest with
              | nil =>
                have hstep : parseLoop o [arg] positional named
                    = Except.error (ParseError.MissingValue opt.name) := by
                  simp [parseLoop, hd, hfo, ha]
                rw [hstep]; simp
              | cons value rest' =>
                have hrlen' : rest'.length ≤ n := by
                  simp only [List.length_cons] at hrlen; omega
                have hstep : parseLoop o (arg :: value :: rest') positional named
                    = parseLoop o rest' positional
                        (mapInsert named opt.name (Value.Single value)) := by
                  simp [parseLoop, hd, hfo, ha]
                rw [hstep]
                apply ihn rest' hrlen'
                intro op hop hopa
                by_cases hname : op.name = opt.name
                · have heq : op = opt := nodup_name_eq hnd hop hmem hname
                  rw [heq, ha] at hopa
                  cases hopa
                · obtain ⟨vs, hvs⟩ := hinv op hop hopa
                  exact ⟨vs, by
                    rw [mapGet_mapInsert_ne _ _ (fun he => hname he.symm), hvs]⟩
            | Append =>
              cases rest with
              | nil =>
                have hstep : parseLoop o [arg] positional named
                    = Except.error (ParseError.MissingValue opt.name) := by
                  simp [parseLoop, hd, hfo, ha]
                rw [hstep]; simp
              | cons value rest' =>
                have hrlen' : rest'.length ≤ n := by
                  simp only [List.length_cons] at hrlen; omega
                obtain ⟨vs, hvs⟩ := hinv opt hmem ha
                have hstep : parseLoop o (arg :: value :: rest') positional named
                    = parseLoop o rest' positional
                        (mapInsert named opt.name (Value.Multi (vs ++ [value]))) := by
                  simp [parseLoop, hd, hfo, ha, hvs]
                rw [hstep]
                apply ihn rest' hrlen'
                intro op hop hopa
                by_cases hname : op.name = opt.name
                · exact ⟨vs ++ [value], by rw [hname, mapGet_mapInsert_self]⟩
                · obtain ⟨vs', hvs'⟩ := hinv op hop hopa
                  exact ⟨vs', by
                    rw [mapGet_mapInsert_ne _ _ (fun he => hname he.symm), hvs']⟩
            | SetTrue =>
              have hstep : parseLoop o (arg :: rest) positional named
                  = parseLoop o rest positional
                      (mapInsert named opt.name (Value.Flag true)) := by
                simp [parseLoop, hd, hfo, ha]
              rw [hstep]
              apply ihn rest hrlen
              intro op hop hopa
              by_cases hname : op.name = opt.name
              · have heq : op = opt := nodup_name_eq hnd hop hmem hname
                rw [heq, ha] at hopa
                cases hopa
              · obtain ⟨vs, hvs⟩ := hinv op hop hopa
                exact ⟨vs, by
                  rw [mapGet_mapInsert_ne _ _ (fun he => hname he.symm), hvs]⟩
            | SetFalse =>
              have hstep : parseLoop o (arg :: rest) positional named
                  = parseLoop o rest positional
                      (mapInsert named opt.name (Value.Flag false)) := by
                simp [parseLoop, hd, hfo, ha]
              rw [hstep]
              apply ihn rest hrlen
              intro op hop hopa
              by_cases hname : op.name = opt.name
              · have heq : op = opt := nodup_name_eq hnd hop hmem hname
                rw [heq, ha] at hopa
                cases hopa
              · obtain ⟨vs, hvs⟩ := hinv op hop hopa
                exact ⟨vs, by
                  rw [mapGet_mapInsert_ne _ _ (fun he => hname he.symm), hvs]⟩
        · have hstep : parseLoop o (arg :: rest) positional named
              = parseLoop o rest (positional ++ [arg]) named := by
            simp [parseLoop, hd]
          rw [hstep]
          exact ihn rest hrlen (positional ++ [arg]) named hinv
  intro tokens positional named hinv
  exact H tokens.length tokens le_rfl positional named hinv

theorem populate_append_inv (o : Opts) (hnd : (o.opts.map Opt.name).Nodup)
    (hnodef : ∀ op ∈ o.opts, op.action = Action.Append → op.default = none) :
    AppendInv o (o.populate_defaults []) := by
  intro op hop hopa
  have hg := populateLoop_get_mem o.opts [] op hnd hop
  have hseed : specSeed op = some (Value.Multi []) := by
    simp [specSeed, hnodef op hop hopa, hopa]
  refine ⟨[], ?_⟩
  rw [Opts.populate_defaults, hg, hseed]

/-- C2 (amended): for every Registry that passed validation and in which no
`Append`-action declaration carries a `default`, `parse` never returns the
bad-internal-state error.  (The original claim, without the no-default side
condition, is refuted by the counterexample above: validation does not reject
an `Append` option with a `default`, and its seeded `Single` value makes the
defensive branch reachable.) -/
theorem C2_no_bad_internal_state (o : Opts) (h : o.validate = Except.ok ())
    (hnodef : ∀ op ∈ o.opts, op.action = Action.Append → op.default = none)
    (args : List String) :
    o.parse args ≠ Except.error ParseError.BadInternalState := by
  have hnd : (o.opts.map Opt.name).Nodup := ((validate_ok_iff o).1 h).1
  cases args with
  | nil => simp [Opts.parse]
  | cons e rest =>
    simp only [Opts.parse]
    have hloop := parseLoop_no_bis o hnd rest [] (o.populate_defaults [])
      (populate_append_inv o hnd hnodef)
    cases hpl : parseLoop o rest [] (o.populate_defaults []) with
    | error e' =>
      intro hEq
      simp only [] at hEq
      injection hEq with hEq'
      exact hloop (by rw [hpl, hEq'])
    | ok pr =>
      obtain ⟨p, nm⟩ := pr
      simp [hpl]

/-- A validated registry whose `Append` option has no default. -/
def exInv : Opts := ⟨[((Opt.ofName "q").withShort 'q').withAction Action.Append]⟩

/-- C2 witness: the amended theorem applied to `exInv` on a concrete input
with two `Append` occurrences. -/
theorem C2_no_bad_internal_state_witness :
    exInv.parse ["prog", "-q", "a", "-q", "b"] ≠ Except.error ParseError.BadInternalState :=
  C2_no_bad_internal_state exInv rfl (by decide) ["prog", "-q", "a", "-q", "b"]

end ArgParse
